import Mathlib

/-!
Shallow embedding of `src/scripts/theia-standalone-browser-app.ts`:
a provisioning pipeline that starts an ephemeral Verdaccio registry,
publishes extensions to it, copies and adapts an application, builds and
minifies it, and tears down all ephemeral resources.

JavaScript strings are modelled as Lean `String` (or `List Char` where
character-level splitting matters), JS objects used as string maps as
association lists, the filesystem state of a single file as
`Option String`, and the outcome of each external process invocation as an
oracle supplied by an `Env` record.
-/

namespace TheiaApp

/-! ### Process executor (`executeProcess`, lines 156-166) -/

/-- Result record of `spawnSync`: `signal` (termination signal, if any),
`error` (launch error, if any), `status` (exit code, if the process exited
normally). -/
structure ProcResult where
  signal : Option String
  error : Option String
  status : Option Int
deriving DecidableEq

/-- The failures `executeProcess` can raise: `Error("Aborted.")` when the
child was signalled, or the rethrown launch error. -/
inductive ExecError where
  | aborted
  | launch (e : String)
deriving DecidableEq

/-- Function `executeProcess` (lines 156-166): throws `Aborted.` if
`process.signal` is truthy, rethrows `process.error` if truthy, and
otherwise returns normally (the exit status code is never inspected). -/
def executeProcess (r : ProcResult) : Except ExecError Unit :=
  if r.signal.isSome then
    .error .aborted
  else
    match r.error with
    | some e => .error (.launch e)
    | none => .ok ()

/-! ### Glob collection and deduplication (`publishExtensions`, lines 112-118) -/

/-- JS `[...new Set(paths)]`: insert each element in order, skipping
those already present, so the first occurrence of each element is kept in
insertion order. -/
def jsSetDedup (l : List String) : List String :=
  l.foldl (fun acc x => if x ∈ acc then acc else acc ++ [x]) []

/-- Lines 113-118: per include pattern, `glob.sync` matches (with the
ignore patterns applied and paths realpath-resolved, both inside the
`globSync` oracle) are pushed into one list, then deduplicated via
`[...new Set(paths)]`. -/
def uniquePaths (globSync : String → List String) (includes : List String) :
    List String :=
  jsSetDedup (includes.flatMap globSync)

/-! ### Credential file (`createNpmrcFile`, lines 69-82) -/

/-- Filesystem state of the `.npmrc` path: `some c` = file exists with
content `c`, `none` = file absent. -/
abbrev FileState := Option String

/-- Content written to `.npmrc` (line 80): the registry URL with `http:`
stripped, followed by the auth-token line. -/
def npmrcLine (registry : String) : String :=
  (registry.replace "http:" "") ++ "/:_authToken=\"fooBar\"\n"

/-- The cleanup closure captured by `createNpmrcFile` at creation time:
either write the original content back (line 76) or remove the file
(line 78). -/
inductive NpmrcCleanup where
  | restoreContent (original : String)
  | removeFile
deriving DecidableEq

/-- Function `createNpmrcFile` (lines 69-82): if the file exists, capture its
content and choose restore; otherwise choose delete. Then overwrite the
file with the auth line. Returns the disposal closure and the new file
state. -/
def createNpmrcFile (registry : String) (file : FileState) :
    NpmrcCleanup × FileState :=
  match file with
  | some original => (.restoreContent original, some (npmrcLine registry))
  | none => (.removeFile, some (npmrcLine registry))

/-- Running the captured cleanup on the file state found at disposal time
(the state is ignored: the choice was fixed at creation). -/
def runNpmrcCleanup : NpmrcCleanup → FileState → FileState
  | .restoreContent c, _ => some c
  | .removeFile, _ => none

/-! ### Manifest adaptation (`adaptApp`, lines 133-142) -/

/-- A JSON object used as a string-to-string map (the `resolutions`
mapping), as an ordered association list. -/
abbrev JObj := List (String × String)

/-- Property access `o[k]` on a JS object modelled as an association
list. -/
def jsLookup (o : JObj) (k : String) : Option String :=
  (o.find? (fun kv => kv.1 == k)).map (·.2)

/-- JS object spread `{ ...a, ...b }`: keys of `a` in order with values
overridden by `b` on collision, followed by the keys of `b` not in `a`. -/
def spreadMerge (a b : JObj) : JObj :=
  (a.map (fun kv =>
    match jsLookup b kv.1 with
    | some v => (kv.1, v)
    | none => kv))
  ++ b.filter (fun kv => (jsLookup a kv.1).isNone)

/-- The slice of a package manifest that `adaptApp` inspects: the
`resolutions` field (`none` when absent or JS-falsy). -/
structure PackageJson where
  resolutions : Option JObj
deriving DecidableEq

/-- Function `adaptApp` (lines 133-142), at the level of the manifest contents: if
the root manifest's `resolutions` is truthy, rewrite the copied app
manifest with `resolutions` set to `{ ...app.resolutions,
...root.resolutions }` (an absent app `resolutions` spreads as empty);
otherwise perform no write (`none`). -/
def adaptApp (rootPkg appPkg : PackageJson) : Option PackageJson :=
  match rootPkg.resolutions with
  | some rootRes =>
      some { appPkg with
        resolutions := some (spreadMerge (appPkg.resolutions.getD []) rootRes) }
  | none => none

/-! ### Output path handling (line 48, 130, 138, 140) -/

/-- JS `s.endsWith(suffix)` via the underlying character lists. -/
def jsEndsWith (s suffix : String) : Bool :=
  suffix.data.isSuffixOf s.data

/-- Line 48: `args.output.endsWith('/') ? args.output : args.output + '/'`. -/
def normalizeOutput (output : String) : String :=
  if jsEndsWith output "/" then output else output ++ "/"

/-- Line 130: the lockfile is copied to `target + 'yarn.lock'`. -/
def copyAppLockfilePath (target : String) : String := target ++ "yarn.lock"

/-- Lines 138/140: the app manifest is read and rewritten at
`target + 'package.json'`. -/
def adaptAppManifestPath (target : String) : String := target ++ "package.json"

/-! ### Registry launcher argument construction (`startVerdaccio`, lines 84-102)

Modelled at character level (JS strings as `List Char`) because the
construction joins the two option strings with a space and then splits on
single spaces. -/

/-- JS `s.split(' ')`: split on every single space, keeping empty
pieces. -/
def jsSplitSpace : List Char → List (List Char)
  | [] => [[]]
  | c :: cs =>
    if c = ' ' then [] :: jsSplitSpace cs
    else
      match jsSplitSpace cs with
      | r :: rs => (c :: r) :: rs
      | [] => [[c]]

/-- Lines 86-88: `configCmd` is `--config <config>` when `config` is
truthy (nonempty) and the empty string otherwise; `portCmd` is
`--listen <port>` when `port` is truthy (nonzero); the argument array is
`` `${configCmd} ${portCmd}`.split(' ') ``. -/
def verdaccioArgs (config : List Char) (port : Nat) : List (List Char) :=
  let configCmd := if config ≠ [] then "--config ".data ++ config else []
  let portCmd := if port ≠ 0 then "--listen ".data ++ (toString port).data else []
  jsSplitSpace (configCmd ++ [' '] ++ portCmd)

/-- The `spawn('verdaccio', args, { env: { ..., VERDACCIO_STORAGE_PATH:
path.resolve(storage) } })` call of lines 92-102, with `path.resolve`
(an external Node primitive) supplied as an oracle. -/
structure SpawnCall where
  cmd : String
  args : List (List Char)
  envStoragePath : String

/-- Lines 84-102: the spawn call issued by `startVerdaccio`. -/
def startVerdaccioSpawn (resolve : String → String) (config : List Char)
    (port : Nat) (storage : String) : SpawnCall :=
  { cmd := "verdaccio"
    args := verdaccioArgs config port
    envStoragePath := resolve storage }

/-! ### The pipeline (`execute`, lines 43-67), as an event trace

Each run of the pipeline is a sequence of observable events. External
outcomes (port wait, glob results, per-invocation process results,
filesystem success) are supplied by an `Env` oracle. The body of the
`try` block is a list of step chunks; the `finally` block appends one
disposal pass over the registered disposables, in registration order
(`disposables.forEach(d => d.dispose())`, line 45). An interrupt signal
runs the same `cleanup` as an extra pass (line 46) without stopping the
body. -/

/-- The two disposable handles the pipeline registers: the Verdaccio
handle (line 56) and the npmrc handle (line 57). -/
inductive HandleId where
  | verdaccio
  | npmrc
deriving DecidableEq

/-- Observable events of a pipeline run. -/
inductive Event where
  | spawnVerdaccio
  | portReady
  | register (h : HandleId)
  | dispose (h : HandleId)
  | publish (p : String)
  | copy
  | adapt
  | build
  | minifyInit
  | minifyForce
  | success
deriving DecidableEq

/-- Oracle for all external outcomes of one run. -/
structure Env where
  /-- whether `await waitPort({ port })` (line 103) resolves -/
  waitPortOk : Bool
  /-- whether `createNpmrcFile`'s filesystem writes succeed -/
  npmrcOk : Bool
  /-- `glob.sync(pattern, { ignore, realpath: true })` (line 115) -/
  globSync : String → List String
  /-- `spawnSync` result of `yarn publish` in each extension path (line 122) -/
  publishResult : String → ProcResult
  /-- whether `copyApp`'s filesystem operations succeed -/
  copyOk : Bool
  /-- whether `adaptApp`'s filesystem operations succeed -/
  adaptOk : Bool
  /-- `spawnSync` result of `yarn install` (line 146) -/
  buildResult : ProcResult
  /-- `spawnSync` result of `yarn autoclean --init` (line 152) -/
  minifyInitResult : ProcResult
  /-- `spawnSync` result of `yarn autoclean --force` (line 153) -/
  minifyForceResult : ProcResult

/-- The configuration options the trace model consumes. -/
structure Config where
  output : String
  includeExtensions : List String

/-- The `target` string the pipeline threads to `copyApp`, `adaptApp`,
`buildApp` and `minifyApp` (line 48). -/
def pipelineTarget (cfg : Config) : String := normalizeOutput cfg.output

/-- The publish loop of lines 119-123: for each unique path in order, the
publish command is invoked; a signalled or launch-errored invocation
throws, ending the loop (and the pipeline body). Returns the events and
whether the loop threw. -/
def publishLoop (publishResult : String → ProcResult) :
    List String → List Event × Bool
  | [] => ([], false)
  | p :: ps =>
    match executeProcess (publishResult p) with
    | .ok _ =>
      let rest := publishLoop publishResult ps
      (Event.publish p :: rest.1, rest.2)
    | .error _ => ([Event.publish p], true)

/-- The pipeline steps after both handles are registered (lines 58-63):
publish, copy, adapt, build, minify (two invocations), success message.
Each list element is the event chunk of one awaited step; the body stops
after the first throwing step. Returns the chunks and whether the body
threw. -/
def laterSteps (env : Env) (cfg : Config) : List (List Event) × Bool :=
  let cons := fun (c : List Event) (r : List (List Event) × Bool) =>
    (c :: r.1, r.2)
  let pub := publishLoop env.publishResult
    (uniquePaths env.globSync cfg.includeExtensions)
  if pub.2 then ([pub.1], true)
  else cons pub.1 <|
    if !env.copyOk then ([[]], true)
    else cons [Event.copy] <|
      if !env.adaptOk then ([[]], true)
      else cons [Event.adapt] <|
        match executeProcess env.buildResult with
        | .error _ => ([[Event.build]], true)
        | .ok _ => cons [Event.build] <|
          match executeProcess env.minifyInitResult with
          | .error _ => ([[Event.minifyInit]], true)
          | .ok _ =>
            match executeProcess env.minifyForceResult with
            | .error _ => ([[Event.minifyInit, Event.minifyForce]], true)
            | .ok _ =>
              ([[Event.minifyInit, Event.minifyForce], [Event.success]], false)

/-- One run of the `try` body (lines 55-63): per awaited step, the events
it emits and the `disposables` list after it; `failed` records whether
the body threw. -/
structure BodyRun where
  chunks : List (List Event × List HandleId)
  failed : Bool

/-- The `try` body: start Verdaccio and register its handle (throwing
before registration if the port wait fails), create the npmrc file and
register its handle, then the later steps (which never touch
`disposables`). -/
def runBody (env : Env) (cfg : Config) : BodyRun :=
  if !env.waitPortOk then
    { chunks := [([Event.spawnVerdaccio], [])], failed := true }
  else
    let c0 : List Event × List HandleId :=
      ([Event.spawnVerdaccio, Event.portReady, Event.register .verdaccio],
       [.verdaccio])
    if !env.npmrcOk then
      { chunks := [c0, ([], [.verdaccio])], failed := true }
    else
      let c1 : List Event × List HandleId :=
        ([Event.register .npmrc], [.verdaccio, .npmrc])
      let later := laterSteps env cfg
      { chunks := c0 :: c1 ::
          later.1.map (fun evs => (evs, [.verdaccio, .npmrc]))
        failed := later.2 }

/-- All events emitted by the body, in order. -/
def bodyEvents (b : BodyRun) : List Event := b.chunks.flatMap (·.1)

/-- The `disposables` list at the end of the body (registration order). -/
def finalRegs (b : BodyRun) : List HandleId :=
  (b.chunks.getLast?.map (·.2)).getD []

/-- A full run with no interrupt: the body followed by the `finally`
cleanup pass (line 45: dispose each registered handle, in registration
order). -/
def executeTrace (env : Env) (cfg : Config) : List Event :=
  let b := runBody env cfg
  bodyEvents b ++ (finalRegs b).map Event.dispose

/-- The `disposables` list as of the body's first `k` awaited steps
(registration order). -/
def regsAt (env : Env) (cfg : Config) (k : Nat) : List HandleId :=
  (((runBody env cfg).chunks.take k).getLast?.map (·.2)).getD []

/-- A run during which SIGINT is delivered after the body's first `k`
awaited steps: the handler (line 46) runs the same `cleanup` over the
handles registered so far, the body continues (the handler does not
terminate it), and the `finally` pass still runs at the end. -/
def executeTraceSigint (env : Env) (cfg : Config) (k : Nat) : List Event :=
  let b := runBody env cfg
  (b.chunks.take k).flatMap (·.1)
    ++ (regsAt env cfg k).map Event.dispose
    ++ (b.chunks.drop k).flatMap (·.1)
    ++ (finalRegs b).map Event.dispose

/-! ### Concrete fixtures used to evaluate the model on explicit runs -/

/-- A `spawnSync` result for a clean exit: no signal, no launch error,
status 0. -/
def okProc : ProcResult := ⟨none, none, some 0⟩

/-- A run where every external step succeeds except that the single
published extension's `yarn publish` invocation exits with status code 1
(no signal, no launch error). -/
def envStatusOne : Env :=
  { waitPortOk := true
    npmrcOk := true
    globSync := fun _ => ["ext1"]
    publishResult := fun _ => ⟨none, none, some 1⟩
    copyOk := true
    adaptOk := true
    buildResult := okProc
    minifyInitResult := okProc
    minifyForceResult := okProc }

/-- A run where the single publish invocation is terminated by SIGTERM. -/
def envSignalled : Env :=
  { envStatusOne with publishResult := fun _ => ⟨some "SIGTERM", none, none⟩ }

/-- A run where the registry port wait fails. -/
def envNoPort : Env := { envStatusOne with waitPortOk := false }

/-- The default configuration values of lines 28-34 that the trace model
consumes. -/
def cfgFixture : Config :=
  { output := "../target/", includeExtensions := ["theia-extensions/*"] }

/-! ## Lemmas -/

/-! ### Deduplication -/

lemma jsSetDedup_foldl_mem (l : List String) :
    ∀ (acc : List String) (y : String),
      (y ∈ l.foldl (fun acc x => if x ∈ acc then acc else acc ++ [x]) acc) ↔
        y ∈ acc ∨ y ∈ l := by
  induction l with
  | nil => simp
  | cons x xs ih =>
    intro acc y
    simp only [List.foldl_cons, ih, List.mem_cons]
    by_cases hx : x ∈ acc
    · simp only [if_pos hx]
      constructor
      · rintro (h | h)
        · exact .inl h
        · exact .inr (.inr h)
      · rintro (h | rfl | h)
        · exact .inl h
        · exact .inl hx
        · exact .inr h
    · simp only [if_neg hx, List.mem_append, List.mem_singleton]
      tauto

lemma jsSetDedup_foldl_nodup (l : List String) :
    ∀ acc : List String, acc.Nodup →
      (l.foldl (fun acc x => if x ∈ acc then acc else acc ++ [x]) acc).Nodup := by
  induction l with
  | nil => intro acc h; simpa using h
  | cons x xs ih =>
    intro acc h
    simp only [List.foldl_cons]
    apply ih
    by_cases hx : x ∈ acc
    · simpa [hx] using h
    · simp [hx, List.nodup_append, h]

lemma jsSetDedup_mem (l : List String) (y : String) :
    y ∈ jsSetDedup l ↔ y ∈ l := by
  simp [jsSetDedup, jsSetDedup_foldl_mem]

lemma jsSetDedup_nodup (l : List String) : (jsSetDedup l).Nodup :=
  jsSetDedup_foldl_nodup l [] (by simp)

/-! ### Publish loop -/

lemma publishLoop_mem (f : String → ProcResult) :
    ∀ (ps : List String) (e : Event), e ∈ (publishLoop f ps).1 →
      ∃ p, e = Event.publish p ∧ p ∈ ps := by
  intro ps
  induction ps with
  | nil => simp [publishLoop]
  | cons p ps ih =>
    intro e he
    simp only [publishLoop] at he
    split at he
    · rcases List.mem_cons.mp he with rfl | he
      · exact ⟨p, rfl, List.mem_cons_self _ _⟩
      · obtain ⟨q, rfl, hq⟩ := ih e he
        exact ⟨q, rfl, List.mem_cons_of_mem _ hq⟩
    · rcases List.mem_singleton.mp he with rfl
      exact ⟨p, rfl, List.mem_cons_self _ _⟩

lemma publishLoop_stops (f : String → ProcResult) (p : String)
    (ps : List String) (e : ExecError) (h : executeProcess (f p) = .error e) :
    publishLoop f (p :: ps) = ([Event.publish p], true) := by
  simp [publishLoop, h]

/-! ### Later pipeline steps -/

lemma laterSteps_ne_nil (env : Env) (cfg : Config) :
    (laterSteps env cfg).1 ≠ [] := by
  unfold laterSteps
  dsimp only
  split
  · simp
  · simp

lemma laterSteps_pubFail (env : Env) (cfg : Config)
    (h : (publishLoop env.publishResult
      (uniquePaths env.globSync cfg.includeExtensions)).2 = true) :
    laterSteps env cfg =
      ([(publishLoop env.publishResult
        (uniquePaths env.globSync cfg.includeExtensions)).1], true) := by
  unfold laterSteps
  simp [h]

lemma laterSteps_mem (env : Env) (cfg : Config) (e : Event)
    (he : e ∈ (laterSteps env cfg).1.flatMap id) :
    (∃ p, e = Event.publish p) ∨ e = .copy ∨ e = .adapt ∨ e = .build
      ∨ e = .minifyInit ∨ e = .minifyForce ∨ e = .success := by
  unfold laterSteps at he
  dsimp only at he
  split at he
  · simp only [List.flatMap_cons, List.flatMap_nil, id, List.append_nil] at he
    obtain ⟨p, rfl, _⟩ := publishLoop_mem _ _ _ he
    exact .inl ⟨p, rfl⟩
  · simp only [List.flatMap_cons, id, List.mem_append] at he
    rcases he with he | he
    · obtain ⟨p, rfl, _⟩ := publishLoop_mem _ _ _ he
      exact .inl ⟨p, rfl⟩
    · split at he
      · simp at he
      · simp only [List.flatMap_cons, id, List.mem_append,
          List.mem_singleton] at he
        rcases he with rfl | he
        · exact .inr (.inl rfl)
        · split at he
          · simp at he
          · simp only [List.flatMap_cons, id, List.mem_append,
              List.mem_singleton] at he
            rcases he with rfl | he
            · exact .inr (.inr (.inl rfl))
            · split at he
              · simp at he
                subst he
                exact .inr (.inr (.inr (.inl rfl)))
              · simp only [List.flatMap_cons, id, List.mem_append,
                  List.mem_singleton] at he
                rcases he with rfl | he
                · exact .inr (.inr (.inr (.inl rfl)))
                · split at he
                  · simp at he
                    subst he
                    exact .inr (.inr (.inr (.inr (.inl rfl))))
                  · split at he
                    · simp at he
                      rcases he with rfl | rfl
                      · exact .inr (.inr (.inr (.inr (.inl rfl))))
                      · exact .inr (.inr (.inr (.inr (.inr (.inl rfl)))))
                    · simp at he
                      rcases he with rfl | rfl | rfl
                      · exact .inr (.inr (.inr (.inr (.inl rfl))))
                      · exact .inr (.inr (.inr (.inr (.inr (.inl rfl)))))
                      · exact .inr (.inr (.inr (.inr (.inr (.inr rfl)))))

lemma register_not_mem_laterSteps (env : Env) (cfg : Config) (h : HandleId) :
    Event.register h ∉ (laterSteps env cfg).1.flatMap id := by
  intro he
  rcases laterSteps_mem env cfg _ he with ⟨p, hp⟩ | h' | h' | h' | h' | h' | h' <;>
    simp_all

lemma dispose_not_mem_laterSteps (env : Env) (cfg : Config) (h : HandleId) :
    Event.dispose h ∉ (laterSteps env cfg).1.flatMap id := by
  intro he
  rcases laterSteps_mem env cfg _ he with ⟨p, hp⟩ | h' | h' | h' | h' | h' | h' <;>
    simp_all

/-! ### Body runs -/

lemma runBody_noPort (env : Env) (cfg : Config) (h : env.waitPortOk = false) :
    runBody env cfg = ⟨[([Event.spawnVerdaccio], [])], true⟩ := by
  simp [runBody, h]

lemma runBody_noNpmrc (env : Env) (cfg : Config) (hw : env.waitPortOk = true)
    (hn : env.npmrcOk = false) :
    runBody env cfg =
      ⟨[([Event.spawnVerdaccio, Event.portReady, Event.register .verdaccio],
          [.verdaccio]),
        ([], [.verdaccio])], true⟩ := by
  simp [runBody, hw, hn]

lemma runBody_main (env : Env) (cfg : Config) (hw : env.waitPortOk = true)
    (hn : env.npmrcOk = true) :
    runBody env cfg =
      ⟨([Event.spawnVerdaccio, Event.portReady, Event.register .verdaccio],
          [.verdaccio])
        :: ([Event.register .npmrc], [.verdaccio, .npmrc])
        :: (laterSteps env cfg).1.map
             (fun evs => (evs, [.verdaccio, .npmrc])),
        (laterSteps env cfg).2⟩ := by
  simp [runBody, hw, hn]

lemma bodyEvents_main (env : Env) (cfg : Config) (hw : env.waitPortOk = true)
    (hn : env.npmrcOk = true) :
    bodyEvents (runBody env cfg) =
      Event.spawnVerdaccio :: Event.portReady :: Event.register .verdaccio
        :: Event.register .npmrc :: (laterSteps env cfg).1.flatMap id := by
  rw [runBody_main env cfg hw hn]
  simp only [bodyEvents, List.flatMap_cons, List.flatMap_map, Function.comp,
    List.cons_append, List.nil_append, List.flatMap_nil, List.append_nil]
  rfl

lemma finalRegs_main (env : Env) (cfg : Config) (hw : env.waitPortOk = true)
    (hn : env.npmrcOk = true) :
    finalRegs (runBody env cfg) = [.verdaccio, .npmrc] := by
  rw [runBody_main env cfg hw hn]
  unfold finalRegs
  have h1 : (laterSteps env cfg).1 ≠ [] := laterSteps_ne_nil env cfg
  obtain ⟨evs, hevs⟩ :
      ∃ evs, (laterSteps env cfg).1.getLast? = some evs := by
    have := List.getLast?_isSome (l := (laterSteps env cfg).1)
    rcases hx : (laterSteps env cfg).1.getLast? with _ | evs
    · rw [hx] at this
      simp at this
      exact absurd this h1
    · exact ⟨evs, rfl⟩
  have h2 : ((laterSteps env cfg).1.map
      (fun evs => (evs, ([HandleId.verdaccio, HandleId.npmrc] : List HandleId)))).getLast?
        = some (evs, [HandleId.verdaccio, HandleId.npmrc]) := by
    rw [List.getLast?_map, hevs]
    rfl
  have h3 : (([Event.register HandleId.npmrc],
      ([HandleId.verdaccio, HandleId.npmrc] : List HandleId)) ::
        (laterSteps env cfg).1.map
          (fun evs => (evs, [HandleId.verdaccio, HandleId.npmrc]))).getLast?
        = some (evs, [HandleId.verdaccio, HandleId.npmrc]) := by
    rw [← List.singleton_append, List.getLast?_append, h2]
    rfl
  simp [List.getLast?_cons_cons, h3]

lemma finalRegs_shape (env : Env) (cfg : Config) :
    finalRegs (runBody env cfg) = []
      ∨ finalRegs (runBody env cfg) = [.verdaccio]
      ∨ finalRegs (runBody env cfg) = [.verdaccio, .npmrc] := by
  by_cases hw : env.waitPortOk = true
  · by_cases hn : env.npmrcOk = true
    · exact .inr (.inr (finalRegs_main env cfg hw hn))
    · rw [runBody_noNpmrc env cfg hw (Bool.not_eq_true _ ▸ hn)]
      simp [finalRegs]
  · rw [runBody_noPort env cfg (Bool.not_eq_true _ ▸ hw)]
    simp [finalRegs]

lemma runBody_chunks_regs (env : Env) (cfg : Config) :
    ∀ c ∈ (runBody env cfg).chunks,
      c.2 = [] ∨ c.2 = [.verdaccio] ∨ c.2 = [.verdaccio, .npmrc] := by
  intro c hc
  by_cases hw : env.waitPortOk = true
  · by_cases hn : env.npmrcOk = true
    · rw [runBody_main env cfg hw hn] at hc
      simp only [List.mem_cons, List.mem_map] at hc
      rcases hc with rfl | rfl | ⟨evs, _, rfl⟩
      · exact .inr (.inl rfl)
      · exact .inr (.inr rfl)
      · exact .inr (.inr rfl)
    · rw [runBody_noNpmrc env cfg hw (Bool.not_eq_true _ ▸ hn)] at hc
      simp only [List.mem_cons, List.not_mem_nil, or_false] at hc
      rcases hc with rfl | rfl
      · exact .inr (.inl rfl)
      · exact .inr (.inl rfl)
  · rw [runBody_noPort env cfg (Bool.not_eq_true _ ▸ hw)] at hc
    simp only [List.mem_cons, List.not_mem_nil, or_false] at hc
    rcases hc with rfl
    exact .inl rfl

lemma dispose_not_mem_bodyEvents (env : Env) (cfg : Config) (h : HandleId) :
    Event.dispose h ∉ bodyEvents (runBody env cfg) := by
  by_cases hw : env.waitPortOk = true
  · by_cases hn : env.npmrcOk = true
    · rw [bodyEvents_main env cfg hw hn]
      intro he
      simp only [List.mem_cons] at he
      rcases he with h' | h' | h' | h' | h' <;>
        first
          | exact Event.noConfusion h'
          | exact dispose_not_mem_laterSteps env cfg h h'
    · rw [runBody_noNpmrc env cfg hw (Bool.not_eq_true _ ▸ hn)]
      simp [bodyEvents]
  · rw [runBody_noPort env cfg (Bool.not_eq_true _ ▸ hw)]
    simp [bodyEvents]

lemma executeTrace_eq (env : Env) (cfg : Config) :
    executeTrace env cfg
      = bodyEvents (runBody env cfg)
        ++ (finalRegs (runBody env cfg)).map Event.dispose := rfl

lemma executeTraceSigint_eq (env : Env) (cfg : Config) (k : Nat) :
    executeTraceSigint env cfg k
      = ((runBody env cfg).chunks.take k).flatMap (·.1)
        ++ (regsAt env cfg k).map Event.dispose
        ++ ((runBody env cfg).chunks.drop k).flatMap (·.1)
        ++ (finalRegs (runBody env cfg)).map Event.dispose := rfl

lemma regsAt_shape (env : Env) (cfg : Config) (k : Nat) :
    regsAt env cfg k = [] ∨ regsAt env cfg k = [.verdaccio]
      ∨ regsAt env cfg k = [.verdaccio, .npmrc] := by
  unfold regsAt
  rcases hx : ((runBody env cfg).chunks.take k).getLast? with _ | c
  · simp
  · have hc : c ∈ (runBody env cfg).chunks :=
      List.take_subset k _ (List.mem_of_getLast?_eq_some hx)
    simpa using runBody_chunks_regs env cfg c hc

/-! ### Space splitting -/

lemma jsSplitSpace_no_space :
    ∀ (a : List Char), ' ' ∉ a → jsSplitSpace a = [a] := by
  intro a
  induction a with
  | nil => intro _; rfl
  | cons c cs ih =>
    intro h
    have hc : ¬c = ' ' := fun hc => h (hc ▸ List.mem_cons_self c cs)
    have hcs : ' ' ∉ cs := fun hm => h (List.mem_cons_of_mem c hm)
    simp only [jsSplitSpace, if_neg hc, ih hcs]

lemma jsSplitSpace_append (a b : List Char) (h : ' ' ∉ a) :
    jsSplitSpace (a ++ ' ' :: b) = a :: jsSplitSpace b := by
  induction a with
  | nil => simp [jsSplitSpace]
  | cons c cs ih =>
    have hc : ¬c = ' ' := fun hc => h (hc ▸ List.mem_cons_self c cs)
    have hcs : ' ' ∉ cs := fun hm => h (List.mem_cons_of_mem c hm)
    simp only [List.cons_append, jsSplitSpace, if_neg hc, List.append_eq,
      ih hcs]

/-! ### Object spread merge -/

lemma overrideEntry_eq (b : JObj) (kv : String × String) :
    (match jsLookup b kv.1 with | some v => (kv.1, v) | none => kv)
      = (kv.1, (jsLookup b kv.1).getD kv.2) := by
  cases h : jsLookup b kv.1 <;> simp [h]

lemma jsLookup_append (o₁ o₂ : JObj) (k : String) :
    jsLookup (o₁ ++ o₂) k = (jsLookup o₁ k).or (jsLookup o₂ k) := by
  simp only [jsLookup, List.find?_append]
  cases o₁.find? (fun kv => kv.1 == k) <;> simp

lemma jsLookup_map_getD (a b : JObj) (k : String) :
    jsLookup (a.map (fun kv => (kv.1, (jsLookup b kv.1).getD kv.2))) k
      = (jsLookup a k).map (fun v => (jsLookup b k).getD v) := by
  induction a with
  | nil => rfl
  | cons kv a ih =>
    simp only [List.map_cons, jsLookup, List.find?_cons]
    by_cases hk : (kv.1 == k) = true
    · have hkk : kv.1 = k := eq_of_beq hk
      simp [hk, hkk]
    · simp only [hk]
      simpa [jsLookup] using ih

lemma jsLookup_filter_isNone (a b : JObj) (k : String) :
    jsLookup (b.filter (fun kv => (jsLookup a kv.1).isNone)) k
      = if (jsLookup a k).isSome then none else jsLookup b k := by
  induction b with
  | nil =>
    cases h : (jsLookup a k).isSome <;> simp [jsLookup, h]
  | cons kv b ih =>
    simp only [List.filter_cons]
    by_cases hf : ((jsLookup a kv.1).isNone : Bool) = true
    · rw [if_pos hf]
      by_cases hk : (kv.1 == k) = true
      · have hkk : kv.1 = k := eq_of_beq hk
        have hnone : (jsLookup a k).isSome = false := by
          rw [← hkk]
          cases h : jsLookup a kv.1
          · rfl
          · rw [h] at hf
            simp at hf
        have hL : jsLookup
            (kv :: b.filter (fun kv => (jsLookup a kv.1).isNone)) k
              = some kv.2 := by
          simp [jsLookup, List.find?_cons, hk]
        have hR : jsLookup (kv :: b) k = some kv.2 := by
          simp [jsLookup, List.find?_cons, hk]
        rw [hL, hnone]
        simp [hR]
      · have hL : jsLookup
            (kv :: b.filter (fun kv => (jsLookup a kv.1).isNone)) k
              = jsLookup (b.filter (fun kv => (jsLookup a kv.1).isNone)) k := by
          simp [jsLookup, List.find?_cons, hk]
        have hR : jsLookup (kv :: b) k = jsLookup b k := by
          simp [jsLookup, List.find?_cons, hk]
        rw [hL, ih, hR]
    · rw [if_neg hf, ih]
      by_cases hk : (kv.1 == k) = true
      · have hkk : kv.1 = k := eq_of_beq hk
        have hs : (jsLookup a k).isSome = true := by
          rw [← hkk]
          cases h : jsLookup a kv.1
          · rw [h] at hf
            simp at hf
          · rfl
        rw [hs]
        simp
      · have hR : jsLookup (kv :: b) k = jsLookup b k := by
          simp [jsLookup, List.find?_cons, hk]
        rw [hR]

lemma spreadMerge_lookup (a b : JObj) (k : String) :
    jsLookup (spreadMerge a b) k = (jsLookup b k).or (jsLookup a k) := by
  unfold spreadMerge
  have hmap : (a.map (fun kv =>
      match jsLookup b kv.1 with | some v => (kv.1, v) | none => kv))
        = a.map (fun kv => (kv.1, (jsLookup b kv.1).getD kv.2)) := by
    apply List.map_congr_left
    intro kv _
    exact overrideEntry_eq b kv
  rw [jsLookup_append, hmap, jsLookup_map_getD, jsLookup_filter_isNone]
  cases ha : jsLookup a k <;> cases hb : jsLookup b k <;> simp

lemma register_mem_bodyEvents (env : Env) (cfg : Config) (h : HandleId) :
    Event.register h ∈ bodyEvents (runBody env cfg)
      ↔ h ∈ finalRegs (runBody env cfg) := by
  by_cases hw : env.waitPortOk = true
  · by_cases hn : env.npmrcOk = true
    · rw [bodyEvents_main env cfg hw hn, finalRegs_main env cfg hw hn]
      cases h <;> simp
    · rw [runBody_noNpmrc env cfg hw (Bool.not_eq_true _ ▸ hn)]
      cases h <;> simp [bodyEvents, finalRegs]
  · rw [runBody_noPort env cfg (Bool.not_eq_true _ ▸ hw)]
    cases h <;> simp [bodyEvents, finalRegs]

/-! ## Claim theorems -/

/-- C1: in every run of the pipeline — whether it completes all steps or
the body throws at any step — the trace ends with one disposal pass over
exactly the handles registered before termination, in registration order
(the Verdaccio handle before the npmrc handle), every registered handle is
disposed, and no disposal happens during the body. -/
theorem disposeAll_registrationOrder (env : Env) (cfg : Config) :
    executeTrace env cfg
      = bodyEvents (runBody env cfg)
        ++ (finalRegs (runBody env cfg)).map Event.dispose
    ∧ (finalRegs (runBody env cfg) = []
        ∨ finalRegs (runBody env cfg) = [.verdaccio]
        ∨ finalRegs (runBody env cfg) = [.verdaccio, .npmrc])
    ∧ (∀ h, Event.register h ∈ bodyEvents (runBody env cfg)
        ↔ h ∈ finalRegs (runBody env cfg))
    ∧ (∀ h, Event.register h ∈ bodyEvents (runBody env cfg)
        → Event.dispose h ∈ executeTrace env cfg)
    ∧ (∀ h, Event.dispose h ∉ bodyEvents (runBody env cfg)) := by
  refine ⟨rfl, finalRegs_shape env cfg,
    fun h => register_mem_bodyEvents env cfg h, ?_,
    fun h => dispose_not_mem_bodyEvents env cfg h⟩
  intro h hreg
  have hm := (register_mem_bodyEvents env cfg h).mp hreg
  rw [executeTrace_eq]
  exact List.mem_append_right _ (List.mem_map_of_mem Event.dispose hm)

/-- C3: the shared process executor throws if and only if the child was
terminated by a signal (throwing `Aborted.`) or the launch itself errored
(rethrowing the underlying error); a normal exit — whatever the status
code — returns without raising a failure. -/
theorem executeProcess_spec (r : ProcResult) :
    ((∃ e, executeProcess r = .error e)
        ↔ (r.signal.isSome = true ∨ r.error.isSome = true))
    ∧ (r.signal.isSome = true → executeProcess r = .error .aborted)
    ∧ (∀ msg, r.signal = none → r.error = some msg →
        executeProcess r = .error (.launch msg))
    ∧ (r.signal = none → r.error = none → executeProcess r = .ok ()) := by
  obtain ⟨s, e, st⟩ := r
  cases s <;> cases e <;> simp [executeProcess]

/-- C3 witness: a child that exits with status code 1 and no signal or
launch error does not raise a failure. -/
theorem executeProcess_spec_witness :
    executeProcess ⟨none, none, some 1⟩ = .ok () :=
  (executeProcess_spec ⟨none, none, some 1⟩).2.2.2 rfl rfl

/-- C4: creating the npmrc handle writes the auth line, and disposing the
handle restores the file state found at creation time — byte-for-byte
restore of pre-existing content `C`, deletion when no file existed — and
the restore-or-delete choice is fixed at creation time: disposal yields
the same result whatever the file state `s` at disposal time. -/
theorem createNpmrcFile_roundTrip (registry : String) (file s : FileState) :
    (createNpmrcFile registry file).2 = some (npmrcLine registry)
    ∧ runNpmrcCleanup (createNpmrcFile registry file).1 s = file := by
  cases file <;> simp [createNpmrcFile, runNpmrcCleanup]

/-- C5: when the root manifest has a `resolutions` mapping, `adaptApp`
rewrites the copied manifest with the shallow key union of the copied
manifest's resolutions and the root's, the root's value winning on every
key collision; when the root manifest has no `resolutions` field, no
write is performed. -/
theorem adaptApp_resolutionsMerge (rootPkg appPkg : PackageJson) :
    (∀ rootRes, rootPkg.resolutions = some rootRes →
      adaptApp rootPkg appPkg
        = some { appPkg with
            resolutions := some (spreadMerge (appPkg.resolutions.getD []) rootRes) }
      ∧ ∀ k, jsLookup (spreadMerge (appPkg.resolutions.getD []) rootRes) k
          = ((jsLookup rootRes k).or
              (jsLookup (appPkg.resolutions.getD []) k)))
    ∧ (rootPkg.resolutions = none → adaptApp rootPkg appPkg = none) := by
  constructor
  · intro rootRes hr
    exact ⟨by simp [adaptApp, hr], fun k => spreadMerge_lookup _ _ k⟩
  · intro hr
    simp [adaptApp, hr]

/-- C5 witness: root `{"x":"1.0"}` merged over copy
`{"x":"0.9","y":"2.0"}` yields `{"x":"1.0","y":"2.0"}`. -/
theorem adaptApp_resolutionsMerge_witness :
    adaptApp ⟨some [("x", "1.0")]⟩ ⟨some [("x", "0.9"), ("y", "2.0")]⟩
      = some ⟨some (spreadMerge [("x", "0.9"), ("y", "2.0")] [("x", "1.0")])⟩
    ∧ spreadMerge [("x", "0.9"), ("y", "2.0")] [("x", "1.0")]
      = [("x", "1.0"), ("y", "2.0")] :=
  ⟨((adaptApp_resolutionsMerge ⟨some [("x", "1.0")]⟩
      ⟨some [("x", "0.9"), ("y", "2.0")]⟩).1 _ rfl).1, by decide⟩

/-- C6: the publish set is the duplicate-free union of all matches across
all include patterns: it contains a path exactly when some include
pattern matched it, and each path at most once. -/
theorem uniquePaths_dedup (globSync : String → List String)
    (includes : List String) :
    (uniquePaths globSync includes).Nodup
    ∧ (∀ x, x ∈ uniquePaths globSync includes
        ↔ ∃ pat ∈ includes, x ∈ globSync pat)
    ∧ ∀ x, (uniquePaths globSync includes).count x ≤ 1 := by
  refine ⟨jsSetDedup_nodup _, fun x => ?_, fun x => ?_⟩
  · simp [uniquePaths, jsSetDedup_mem]
  · exact List.nodup_iff_count_le_one.mp (jsSetDedup_nodup _) x

/-- C2 counterexample: in a run where the only published extension's
`yarn publish` exits with status code 1 (no signal, no launch error), the
pipeline does not raise a fatal error: the later steps (copy, build) run
and the pipeline completes with the success message. -/
theorem nonzeroExitPublishContinues_cex :
    (envStatusOne.publishResult "ext1").status = some 1
    ∧ (envStatusOne.publishResult "ext1").signal = none
    ∧ (envStatusOne.publishResult "ext1").error = none
    ∧ Event.publish "ext1" ∈ executeTrace envStatusOne cfgFixture
    ∧ (runBody envStatusOne cfgFixture).failed = false
    ∧ Event.copy ∈ executeTrace envStatusOne cfgFixture
    ∧ Event.build ∈ executeTrace envStatusOne cfgFixture
    ∧ Event.success ∈ executeTrace envStatusOne cfgFixture := by
  decide

/-- C2 (amended): a publish invocation that is terminated by a signal or
whose launch errors is fatal: the loop publishes no subsequent package,
the body throws, and no later pipeline step (copy, adapt, build, minify,
success) runs; a publish that merely exits with a non-zero status code
(no signal, no launch error) is not detected and the pipeline
continues. -/
theorem publishFailureAborts :
    (∀ (f : String → ProcResult) (p : String) (ps : List String)
        (e : ExecError), executeProcess (f p) = .error e →
        publishLoop f (p :: ps) = ([Event.publish p], true))
    ∧ (∀ (env : Env) (cfg : Config),
        env.waitPortOk = true → env.npmrcOk = true →
        (publishLoop env.publishResult
          (uniquePaths env.globSync cfg.includeExtensions)).2 = true →
        (runBody env cfg).failed = true
        ∧ Event.copy ∉ executeTrace env cfg
        ∧ Event.adapt ∉ executeTrace env cfg
        ∧ Event.build ∉ executeTrace env cfg
        ∧ Event.minifyInit ∉ executeTrace env cfg
        ∧ Event.minifyForce ∉ executeTrace env cfg
        ∧ Event.success ∉ executeTrace env cfg) := by
  constructor
  · exact fun f p ps e h => publishLoop_stops f p ps e h
  · intro env cfg hw hn hpub
    have hls := laterSteps_pubFail env cfg hpub
    have hfailed : (runBody env cfg).failed = true := by
      rw [runBody_main env cfg hw hn, hls]
    have hnot : ∀ ev : Event, (∀ p, ev ≠ Event.publish p) →
        (∀ hd, ev ≠ Event.dispose hd) → ev ≠ Event.spawnVerdaccio →
        ev ≠ Event.portReady → (∀ hh, ev ≠ Event.register hh) →
        ev ∉ executeTrace env cfg := by
      intro ev hpub' hdis hsp hpr hreg hmem
      rw [executeTrace_eq] at hmem
      rcases List.mem_append.mp hmem with hmem | hmem
      · rw [bodyEvents_main env cfg hw hn] at hmem
        simp only [List.mem_cons] at hmem
        rcases hmem with h | h | h | h | h
        · exact hsp h
        · exact hpr h
        · exact hreg _ h
        · exact hreg _ h
        · rw [hls] at h
          simp only [List.flatMap_cons, List.flatMap_nil, List.append_nil,
            id] at h
          obtain ⟨p, hp, _⟩ := publishLoop_mem _ _ _ h
          exact hpub' p hp
      · obtain ⟨hd, _, hx⟩ := List.mem_map.mp hmem
        exact hdis hd hx.symm
    refine ⟨hfailed, ?_, ?_, ?_, ?_, ?_, ?_⟩ <;>
      apply hnot <;> intros <;> simp

/-- C2 witness: a run whose only publish invocation is terminated by
SIGTERM throws and skips every later step. -/
theorem publishFailureAborts_witness :
    (runBody envSignalled cfgFixture).failed = true
    ∧ Event.copy ∉ executeTrace envSignalled cfgFixture
    ∧ Event.adapt ∉ executeTrace envSignalled cfgFixture
    ∧ Event.build ∉ executeTrace envSignalled cfgFixture
    ∧ Event.minifyInit ∉ executeTrace envSignalled cfgFixture
    ∧ Event.minifyForce ∉ executeTrace envSignalled cfgFixture
    ∧ Event.success ∉ executeTrace envSignalled cfgFixture :=
  publishFailureAborts.2 envSignalled cfgFixture rfl rfl (by decide)

/-- C7: no publish invocation occurs before the registry's port has
become reachable — every publish event sits after a port-ready event in
the trace — and if the port wait fails the body throws, no publish
happens, and the pipeline never completes. -/
theorem registryGating (env : Env) (cfg : Config) :
    (env.waitPortOk = false →
      (runBody env cfg).failed = true
      ∧ Event.success ∉ executeTrace env cfg
      ∧ ∀ p, Event.publish p ∉ executeTrace env cfg)
    ∧ (∀ p, Event.publish p ∈ executeTrace env cfg →
        env.waitPortOk = true
        ∧ ∃ pre post, executeTrace env cfg = pre ++ Event.portReady :: post
            ∧ Event.publish p ∈ post) := by
  constructor
  · intro hw
    rw [executeTrace_eq, runBody_noPort env cfg hw]
    refine ⟨rfl, ?_, ?_⟩ <;> simp [bodyEvents, finalRegs]
  · intro p hmem
    by_cases hw : env.waitPortOk = true
    · refine ⟨hw, ?_⟩
      by_cases hn : env.npmrcOk = true
      · refine ⟨[Event.spawnVerdaccio],
          Event.register .verdaccio :: Event.register .npmrc
            :: ((laterSteps env cfg).1.flatMap id
              ++ (finalRegs (runBody env cfg)).map Event.dispose), ?_, ?_⟩
        · rw [executeTrace_eq, bodyEvents_main env cfg hw hn]
          simp
        · have htr : executeTrace env cfg
              = Event.spawnVerdaccio :: Event.portReady
                :: (Event.register .verdaccio :: Event.register .npmrc
                  :: ((laterSteps env cfg).1.flatMap id
                    ++ (finalRegs (runBody env cfg)).map Event.dispose)) := by
            rw [executeTrace_eq, bodyEvents_main env cfg hw hn]
            simp
          rw [htr] at hmem
          rcases List.mem_cons.mp hmem with h | hmem'
          · exact absurd h (by simp)
          rcases List.mem_cons.mp hmem' with h | hmem''
          · exact absurd h (by simp)
          exact hmem''
      · rw [executeTrace_eq,
          runBody_noNpmrc env cfg hw (Bool.not_eq_true _ ▸ hn)] at hmem
        simp [bodyEvents, finalRegs] at hmem
    · rw [executeTrace_eq,
        runBody_noPort env cfg (Bool.not_eq_true _ ▸ hw)] at hmem
      simp [bodyEvents, finalRegs] at hmem

/-- C7 witness: in a run whose port wait fails, the body throws, the
pipeline never completes and nothing is published. -/
theorem registryGating_witness :
    (runBody envNoPort cfgFixture).failed = true
    ∧ Event.success ∉ executeTrace envNoPort cfgFixture
    ∧ Event.publish "ext1" ∉ executeTrace envNoPort cfgFixture := by
  have h := (registryGating envNoPort cfgFixture).1 rfl
  exact ⟨h.1, h.2.1, h.2.2 "ext1"⟩

/-- C8 counterexample: in a run where SIGINT arrives after both handles
are registered (after the body's second awaited step), each handle's
dispose is invoked twice — once by the signal handler's cleanup pass and
once by the `finally` pass. -/
theorem doubleDispose_cex :
    (executeTraceSigint envStatusOne cfgFixture 2).count
        (Event.dispose .verdaccio) = 2
    ∧ (executeTraceSigint envStatusOne cfgFixture 2).count
        (Event.dispose .npmrc) = 2 := by
  decide

/-- C8 (amended): each handle's release is invoked at most once per
cleanup trigger: at most once in a run with no interrupt, and at most
twice in a run where an interrupt signal arrives (once by the signal
handler, once more by the `finally` block). -/
theorem dispose_atMostOncePerTrigger (env : Env) (cfg : Config)
    (hd : HandleId) :
    (executeTrace env cfg).count (Event.dispose hd) ≤ 1
    ∧ ∀ k, (executeTraceSigint env cfg k).count (Event.dispose hd) ≤ 2 := by
  have hcount : ∀ regs : List HandleId,
      (regs = [] ∨ regs = [.verdaccio] ∨ regs = [.verdaccio, .npmrc]) →
      (regs.map Event.dispose).count (Event.dispose hd) ≤ 1 := by
    intro regs hr
    rcases hr with rfl | rfl | rfl <;> cases hd <;> decide
  constructor
  · rw [executeTrace_eq, List.count_append,
      List.count_eq_zero.mpr (dispose_not_mem_bodyEvents env cfg hd)]
    simpa using hcount _ (finalRegs_shape env cfg)
  · intro k
    have hAB : (((runBody env cfg).chunks.take k).flatMap (·.1)).count
          (Event.dispose hd)
        + (((runBody env cfg).chunks.drop k).flatMap (·.1)).count
          (Event.dispose hd) = 0 := by
      rw [← List.count_append, ← List.flatMap_append, List.take_append_drop]
      exact List.count_eq_zero.mpr (dispose_not_mem_bodyEvents env cfg hd)
    have hRK := hcount _ (regsAt_shape env cfg k)
    have hRF := hcount _ (finalRegs_shape env cfg)
    rw [executeTraceSigint_eq]
    simp only [List.count_append]
    omega

/-- C9 counterexample: with a falsy (empty) config path, the argument
array is not just `--listen <port>`: the space-join-then-split
construction leaves an empty-string argument in the falsy option's
place. -/
theorem verdaccioArgs_cex :
    verdaccioArgs [] 4873 = [[], "--listen".data, "4873".data]
    ∧ [] ∈ verdaccioArgs [] 4873
    ∧ verdaccioArgs [] 4873 ≠ ["--listen".data, "4873".data] := by
  decide

/-- C9 (amended): the argument list contains `--config <path>` exactly
when the config path is truthy and `--listen <port>` exactly when the
port is truthy, but a falsy option leaves one empty-string argument in
its place rather than nothing; the storage directory is injected through
the `VERDACCIO_STORAGE_PATH` environment variable as the
`path.resolve`d path. -/
theorem verdaccioArgs_spec (resolve : String → String) (config : List Char)
    (port : Nat) (storage : String) (hc : ' ' ∉ config)
    (hp : ' ' ∉ (toString port).data) :
    verdaccioArgs config port =
      (if config ≠ [] then ["--config".data, config] else [[]])
        ++ (if port ≠ 0 then ["--listen".data, (toString port).data]
            else [[]])
    ∧ (startVerdaccioSpawn resolve config port storage).cmd = "verdaccio"
    ∧ (startVerdaccioSpawn resolve config port storage).envStoragePath
        = resolve storage := by
  refine ⟨?_, rfl, rfl⟩
  have hcfg9 : ' ' ∉ "--config".data := by decide
  have hlst9 : ' ' ∉ "--listen".data := by decide
  have hnil9 : ' ' ∉ ([] : List Char) := by decide
  have hceq : "--config ".data = "--config".data ++ [' '] := by decide
  have hleq : "--listen ".data = "--listen".data ++ [' '] := by decide
  have key : ∀ (pre rest : List Char), ' ' ∉ pre →
      jsSplitSpace (pre ++ [' '] ++ rest) = pre :: jsSplitSpace rest := by
    intro pre rest hpre
    rw [List.append_assoc, List.singleton_append]
    exact jsSplitSpace_append pre rest hpre
  show jsSplitSpace
      ((if config ≠ [] then "--config ".data ++ config else [])
        ++ [' ']
        ++ (if port ≠ 0 then "--listen ".data ++ (toString port).data
            else []))
      = _
  by_cases h0 : config = []
  · by_cases hprt : port = 0
    · subst h0
      rw [hprt]
      decide
    · subst h0
      have hif : ¬(([] : List Char) ≠ []) := by simp
      rw [if_neg hif, if_neg hif, if_pos hprt, if_pos hprt, hleq]
      rw [key _ _ hnil9, key _ _ hlst9, jsSplitSpace_no_space _ hp]
      rfl
  · by_cases hprt : port = 0
    · rw [if_pos h0, if_pos h0, hprt]
      have hif0 : ¬((0 : Nat) ≠ 0) := by simp
      rw [if_neg hif0, if_neg hif0, hceq]
      rw [show ("--config".data ++ [' ']) ++ config ++ [' ']
            ++ ([] : List Char)
          = "--config".data ++ [' '] ++ (config ++ [' '] ++ []) by simp]
      rw [key _ _ hcfg9, key _ _ hc]
      rfl
    · rw [if_pos h0, if_pos h0, if_pos hprt, if_pos hprt, hceq, hleq]
      rw [show ("--config".data ++ [' ']) ++ config ++ [' ']
            ++ (("--listen".data ++ [' ']) ++ (toString port).data)
          = "--config".data ++ [' '] ++ (config ++ [' ']
            ++ ("--listen".data ++ [' '] ++ (toString port).data)) by simp]
      rw [key _ _ hcfg9, key _ _ hc, key _ _ hlst9,
        jsSplitSpace_no_space _ hp]
      rfl

/-- C9 witness: the default config path and port produce exactly
`--config configs/verdaccio.config.yaml --listen 4873`, and the storage
path is passed through `path.resolve`. -/
theorem verdaccioArgs_spec_witness :
    verdaccioArgs "configs/verdaccio.config.yaml".data 4873 =
      (if "configs/verdaccio.config.yaml".data ≠ ([] : List Char) then
        ["--config".data, "configs/verdaccio.config.yaml".data] else [[]])
        ++ (if (4873 : Nat) ≠ 0 then
            ["--listen".data, (toString (4873 : Nat)).data] else [[]])
    ∧ (startVerdaccioSpawn (fun s => s) "configs/verdaccio.config.yaml".data
        4873 "verdaccio-storage").cmd = "verdaccio"
    ∧ (startVerdaccioSpawn (fun s => s) "configs/verdaccio.config.yaml".data
        4873 "verdaccio-storage").envStoragePath
        = (fun s => s) "verdaccio-storage" :=
  verdaccioArgs_spec (fun s => s) "configs/verdaccio.config.yaml".data 4873
    "verdaccio-storage" (by decide) (by decide)

/-- C10: the pipeline's target string is the output argument with exactly
one trailing slash appended when it does not already end in a slash (an
output already ending in a slash is used unchanged), and the lockfile and
manifest paths are formed from it by plain string concatenation. -/
theorem outputNormalization (cfg : Config) :
    (jsEndsWith cfg.output "/" = true → pipelineTarget cfg = cfg.output)
    ∧ (jsEndsWith cfg.output "/" = false →
        pipelineTarget cfg = cfg.output ++ "/")
    ∧ jsEndsWith (pipelineTarget cfg) "/" = true
    ∧ copyAppLockfilePath (pipelineTarget cfg)
        = pipelineTarget cfg ++ "yarn.lock"
    ∧ adaptAppManifestPath (pipelineTarget cfg)
        = pipelineTarget cfg ++ "package.json" := by
  refine ⟨?_, ?_, ?_, rfl, rfl⟩
  · intro h
    simp [pipelineTarget, normalizeOutput, h]
  · intro h
    simp [pipelineTarget, normalizeOutput, h]
  · by_cases h : jsEndsWith cfg.output "/" = true
    · simp [pipelineTarget, normalizeOutput, h]
    · rw [Bool.not_eq_true] at h
      simp only [pipelineTarget, normalizeOutput, h, Bool.false_eq_true,
        if_false, reduceIte]
      unfold jsEndsWith
      rw [String.data_append, List.isSuffixOf_iff_suffix]
      exact List.suffix_append _ _

/-- C10 witness: the default output `../target/` is used unchanged, while
an output `out` without a trailing slash becomes `out/`. -/
theorem outputNormalization_witness :
    jsEndsWith cfgFixture.output "/" = true
    ∧ pipelineTarget cfgFixture = cfgFixture.output
    ∧ jsEndsWith (Config.mk "out" []).output "/" = false
    ∧ pipelineTarget (Config.mk "out" []) = "out" ++ "/" :=
  ⟨by decide, (outputNormalization cfgFixture).1 (by decide), by decide,
    (outputNormalization (Config.mk "out" [])).2.1 (by decide)⟩

/-- C1 witness: in a concrete full run both handles are registered and
both are disposed, with no disposal inside the body. -/
theorem disposeAll_registrationOrder_witness :
    (Event.register .npmrc ∈ bodyEvents (runBody envStatusOne cfgFixture)
      ↔ HandleId.npmrc ∈ finalRegs (runBody envStatusOne cfgFixture))
    ∧ (Event.register .verdaccio ∈ bodyEvents (runBody envStatusOne cfgFixture)
        → Event.dispose .verdaccio ∈ executeTrace envStatusOne cfgFixture)
    ∧ Event.dispose .npmrc ∉ bodyEvents (runBody envStatusOne cfgFixture) :=
  ⟨(disposeAll_registrationOrder envStatusOne cfgFixture).2.2.1 .npmrc,
    (disposeAll_registrationOrder envStatusOne cfgFixture).2.2.2.1 .verdaccio,
    (disposeAll_registrationOrder envStatusOne cfgFixture).2.2.2.2 .npmrc⟩

/-- C4 witness: with pre-existing content `prev`, disposal restores
exactly `prev`; with no pre-existing file, disposal deletes the file —
whatever the file state at disposal time. -/
theorem createNpmrcFile_roundTrip_witness :
    ((createNpmrcFile "http://localhost:4873" (some "prev")).2
        = some (npmrcLine "http://localhost:4873")
      ∧ runNpmrcCleanup (createNpmrcFile "http://localhost:4873"
          (some "prev")).1 none = some "prev")
    ∧ runNpmrcCleanup (createNpmrcFile "http://localhost:4873" none).1
        (some "other") = none :=
  ⟨createNpmrcFile_roundTrip "http://localhost:4873" (some "prev") none,
    (createNpmrcFile_roundTrip "http://localhost:4873" none
      (some "other")).2⟩

/-- C6 witness: with overlapping include patterns `a/*` and `a/pkg1`,
the path `a/pkg1` is in the publish set exactly once. -/
theorem uniquePaths_dedup_witness :
    (uniquePaths
        (fun p => if p = "a/*" then ["a/pkg1", "a/pkg2"] else ["a/pkg1"])
        ["a/*", "a/pkg1"]).Nodup
    ∧ (uniquePaths
        (fun p => if p = "a/*" then ["a/pkg1", "a/pkg2"] else ["a/pkg1"])
        ["a/*", "a/pkg1"]).count "a/pkg1" ≤ 1 :=
  ⟨(uniquePaths_dedup _ _).1, (uniquePaths_dedup _ _).2.2 "a/pkg1"⟩

/-- C8 witness: in a concrete run, the Verdaccio handle is disposed at
most once without an interrupt, and at most twice when SIGINT arrives
after the second step. -/
theorem dispose_atMostOncePerTrigger_witness :
    (executeTrace envStatusOne cfgFixture).count
        (Event.dispose .verdaccio) ≤ 1
    ∧ (executeTraceSigint envStatusOne cfgFixture 2).count
        (Event.dispose .verdaccio) ≤ 2 :=
  ⟨(dispose_atMostOncePerTrigger envStatusOne cfgFixture .verdaccio).1,
    (dispose_atMostOncePerTrigger envStatusOne cfgFixture .verdaccio).2 2⟩

end TheiaApp
